import Mathlib

/-!
Verification of the spaced-repetition vocabulary practice engine
(`src/routes/Deutsch_Vocab_python.py` and `src/routes/deutsch_recap_python.py`)
against its natural-language specification.

The embedding is shallow: each Python helper becomes a pure Lean function on
an explicit word list (one level of the progress document), Python strings
are `String` (for identity fields) or `List Char` (for the answer-normalising
pipeline, where we reason about `lower`/`strip`), JSON-optional fields become
`Option`, and the file write inside `save_progress` is abstracted by a
boolean outcome parameter.
-/

namespace VocabEngine

/-- A vocabulary word record as stored in `progress.json`.  Fields mirror the
JSON object: `artikel` (possibly empty), `deutsch`, `english`, `status`
(the source writes only `"notyetanswered"`, `"correct"`, `"incorrect"`),
the optional `incorrect_count` (absent in legacy documents) and the optional
`difficulty` field (set to `"hard"` when marked difficult, removed when
marked easy, and set to `"normal"` by the recap bulk-remove path). -/
structure Word where
  artikel : String
  deutsch : String
  english : String
  status : String
  incorrect_count : Option Nat
  difficulty : Option String
deriving Repr, DecidableEq

/-- Python `word.get('incorrect_count', 0)`. -/
def cnt (w : Word) : Nat := w.incorrect_count.getD 0

/-- The identity-tuple test used by every linear scan in the source:
`word['artikel'] == artikel and word['deutsch'] == deutsch and
word['english'] == english`. -/
def wordMatches (artikel deutsch english : String) (w : Word) : Bool :=
  w.artikel == artikel && w.deutsch == deutsch && w.english == english

/-- Index of the first element satisfying `p`, i.e. the record the source's
`for word in progress_data[level]` loops stop at. -/
def firstIdx {α : Type} (p : α → Bool) : List α → Option Nat
  | [] => none
  | x :: xs => if p x then some 0 else (firstIdx p xs).map (· + 1)

/-- The progress document: a mapping from level name to that level's ordered
word list (`progress_data`). -/
def Doc : Type := String → List Word

/-- Mutation of a single level of the document, `progress_data[level] = ws`. -/
def setLevelWords (doc : Doc) (level : String) (ws : List Word) : Doc :=
  fun l => if l = level then ws else doc l

/-- Source `update_word_status` (lines 121-133): set the status of the first
record matching the identity tuple and report `True`; report `False` and leave
the list unchanged when no record matches. -/
def update_word_status (ws : List Word) (artikel deutsch english new_status : String) :
    List Word × Bool :=
  match ws with
  | [] => ([], false)
  | w :: rest =>
    if wordMatches artikel deutsch english w then
      ({ w with status := new_status } :: rest, true)
    else
      let r := update_word_status rest artikel deutsch english new_status
      (w :: r.1, r.2)

/-- Source `increment_incorrect_count` (lines 135-150): initialise a missing
`incorrect_count` to 0, add 1, and return the new value for the first matching
record; return 0 when no record matches. -/
def increment_incorrect_count (ws : List Word) (artikel deutsch english : String) :
    List Word × Nat :=
  match ws with
  | [] => ([], 0)
  | w :: rest =>
    if wordMatches artikel deutsch english w then
      ({ w with incorrect_count := some (cnt w + 1) } :: rest, cnt w + 1)
    else
      let r := increment_incorrect_count rest artikel deutsch english
      (w :: r.1, r.2)

/-- Source `reset_word_incorrect_count` (lines 186-198). -/
def reset_word_incorrect_count (ws : List Word) (artikel deutsch english : String) :
    List Word × Bool :=
  match ws with
  | [] => ([], false)
  | w :: rest =>
    if wordMatches artikel deutsch english w then
      ({ w with incorrect_count := some 0 } :: rest, true)
    else
      let r := reset_word_incorrect_count rest artikel deutsch english
      (w :: r.1, r.2)

/-- Source `mark_word_difficulty` (lines 200-216): set `difficulty` to
`'hard'` or pop the field, on the first matching record. -/
def mark_word_difficulty (ws : List Word) (artikel deutsch english : String)
    (is_difficult : Bool) : List Word × Bool :=
  match ws with
  | [] => ([], false)
  | w :: rest =>
    if wordMatches artikel deutsch english w then
      ({ w with difficulty := if is_difficult then some "hard" else none } :: rest, true)
    else
      let r := mark_word_difficulty rest artikel deutsch english is_difficult
      (w :: r.1, r.2)

/-- The update block of `sync_progress_with_vocab_change` (lines 229-235):
overwrite `english`/`deutsch` only when the new value is truthy (non-empty),
overwrite `artikel` whenever a new value is supplied (`is not None`), and
touch nothing else. -/
def apply_sync_patch (w : Word) (new_english new_german : String)
    (new_artikel : Option String) : Word :=
  { w with
    english := if new_english == "" then w.english else new_english,
    deutsch := if new_german == "" then w.deutsch else new_german,
    artikel := new_artikel.getD w.artikel }

/-- Source `sync_progress_with_vocab_change` (lines 218-242): patch the first
record matching the old identity tuple; report `False` and change nothing when
no record matches. -/
def sync_progress_with_vocab_change (ws : List Word)
    (old_english old_german old_artikel : String)
    (new_english new_german : String) (new_artikel : Option String) :
    List Word × Bool :=
  match ws with
  | [] => ([], false)
  | w :: rest =>
    if wordMatches old_artikel old_german old_english w then
      (apply_sync_patch w new_english new_german new_artikel :: rest, true)
    else
      let r := sync_progress_with_vocab_change rest old_english old_german old_artikel
                 new_english new_german new_artikel
      (w :: r.1, r.2)

/-- Source `save_progress` (lines 90-96).  The `try` body writes the document
to disk; the file system outcome is abstracted by `write_ok`.  The result
triple records what the caller can observe: the in-memory document after the
call, whether the error branch logged, and the function's return value -
Python falls off the end of both branches, so the return value is `None`
(here `none`) in every case. -/
def save_progress {α : Type} (doc : α) (write_ok : Bool) : α × Bool × Option Bool :=
  if write_ok then (doc, false, none) else (doc, true, none)

/-- Source `get_words_to_practice` (lines 98-119): keep the words whose status
is `notyetanswered` or `incorrect`, then if `difficult_only` keep only those
with `word.get('difficulty') == 'hard'`. -/
def get_words_to_practice (ws : List Word) (difficult_only : Bool) : List Word :=
  let words_to_practice :=
    ws.filter (fun w => w.status == "notyetanswered" || w.status == "incorrect")
  if difficult_only then
    words_to_practice.filter (fun w => w.difficulty == some "hard")
  else
    words_to_practice

/-- One word's passage through the recap filter loop
(`deutsch_recap_python.py` lines 79-99): the word is kept unless one of the
four `continue` conditions fires (status mismatch under a non-empty status
filter, non-hard word under the `'hard'` difficulty filter, count below the
minimum, count above a supplied maximum). -/
def recap_keeps (status_filter difficulty_filter : String) (min_ic : Nat)
    (max_ic : Option Nat) (w : Word) : Bool :=
  !(!(status_filter == "") && !(w.status == status_filter)) &&
  !(difficulty_filter == "hard" && !(w.difficulty.getD "normal" == "hard")) &&
  !(cnt w < min_ic) &&
  !(match max_ic with
    | none => false
    | some mx => mx < cnt w)

/-- The recap filtering of one level's words (`deutsch_recap_python.py`
lines 79-99). -/
def recap_filter_words (ws : List Word) (status_filter difficulty_filter : String)
    (min_ic : Nat) (max_ic : Option Nat) : List Word :=
  ws.filter (recap_keeps status_filter difficulty_filter min_ic max_ic)

/-- Level-list sanitising at the top of the practice route (lines 459-466):
substitute `['A1.1']` for an empty request, drop levels not in
`level_options`, and fall back to `['A1.1']` when nothing survives. -/
def filter_selected_levels (selected level_options : List String) : List String :=
  let s1 := if selected.isEmpty then ["A1.1"] else selected
  let s2 := s1.filter (fun l => level_options.contains l)
  if s2.isEmpty then ["A1.1"] else s2

/-- Python `str.strip()` character class, `Char.isWhitespace` on our side. -/
def isSpaceChar (c : Char) : Bool := c.isWhitespace

/-- Python `str.strip()` with no argument: drop leading whitespace. -/
def dropLeading (l : List Char) : List Char := l.dropWhile isSpaceChar

/-- Python `str.strip()` with no argument: drop trailing whitespace. -/
def dropTrailing (l : List Char) : List Char :=
  (l.reverse.dropWhile isSpaceChar).reverse

/-- Python `str.strip()`. -/
def pyStrip (l : List Char) : List Char := dropTrailing (dropLeading l)

/-- Python `str.lower()`. -/
def pyLower (l : List Char) : List Char := l.map Char.toLower

/-- Python `s.lower().strip()`, the normalisation applied to the submitted
and expected answers (lines 573-575). -/
def clean (l : List Char) : List Char := pyStrip (pyLower l)

/-- Line 575: `artikel.lower().strip() if artikel else \'\'` - the cleaned
article, empty when the raw article is falsy. -/
def artikel_clean (artikel : List Char) : List Char :=
  if artikel.isEmpty then [] else clean artikel

/-- The answer-correctness computation of the practice route (lines 572-590),
on the raw submitted answer, expected German word and article.  The
article-prefixed form is built with an f-string and then stripped, the
article-suffixed form is used unstripped; under `articles_mandatory` with a
non-empty cleaned article only the two article-bearing forms are compared. -/
def check_answer (user_input correct_deutsch artikel : List Char)
    (articles_mandatory : Bool) : Bool :=
  let user_clean := clean user_input
  let correct_clean := clean correct_deutsch
  let correct_with_artikel := pyStrip (artikel_clean artikel ++ ' ' :: correct_clean)
  if articles_mandatory && !(artikel_clean artikel).isEmpty then
    user_clean == correct_with_artikel ||
      user_clean == correct_clean ++ ' ' :: artikel_clean artikel
  else
    user_clean == correct_clean ||
      user_clean == correct_with_artikel ||
      (!(artikel_clean artikel).isEmpty &&
        user_clean == correct_clean ++ ' ' :: artikel_clean artikel)

/-- Where a POST word submission is dispatched (line 502): the correction
branch is taken only when the `is_correction` flag is set and at least one
stripped correction field is truthy; every other submission falls through to
normal scoring. -/
inductive SubmissionRoute where
  | correction
  | scoring
deriving Repr, DecidableEq

/-- The dispatch condition of line 502 on the stripped correction fields. -/
def classify_submission (is_correction : Bool)
    (corrected_german corrected_english corrected_artikel corrected_beispielsatz : String) :
    SubmissionRoute :=
  if is_correction &&
      (!(corrected_german == "") || !(corrected_english == "") ||
       !(corrected_artikel == "") || !(corrected_beispielsatz == "")) then
    SubmissionRoute.correction
  else
    SubmissionRoute.scoring

/-- The scoring effects of lines 607-682, given the computed correctness
verdict and retry flag: first-attempt correct sets the status to `'correct'`;
first-attempt incorrect sets the status to `'incorrect'` and increments the
count; a correct retry changes nothing; an incorrect retry only increments
the count. -/
def process_answer (ws : List Word) (artikel deutsch english : String)
    (is_correct is_retry : Bool) : List Word :=
  if is_correct then
    if is_retry then ws
    else (update_word_status ws artikel deutsch english "correct").1
  else
    if is_retry then (increment_incorrect_count ws artikel deutsch english).1
    else
      let ws1 := (update_word_status ws artikel deutsch english "incorrect").1
      (increment_incorrect_count ws1 artikel deutsch english).1

/-- The field-backfill loop at the top of `get_most_difficult_words` and
`get_completion_stats` (lines 170-172 and 250-252): give every record an
explicit `incorrect_count`. -/
def ensureCounts (ws : List Word) : List Word :=
  ws.map (fun w => { w with incorrect_count := some (cnt w) })

/-- One step of a stable descending sort on `incorrect_count`: walk past the
strictly larger counts and insert before the first record whose count is not
larger.  `sortDesc` below is provably the unique permutation that is sorted
descending and keeps equal counts in original order, which is the documented
semantics of Python's `sorted(..., key=..., reverse=True)` used at
lines 175-179. -/
def insertDesc (w : Word) : List Word → List Word
  | [] => [w]
  | x :: xs => if cnt w < cnt x then x :: insertDesc w xs else w :: x :: xs

/-- Stable descending sort by `incorrect_count`, modelling
`sorted(progress_data[level], key=lambda w: w.get('incorrect_count', 0), reverse=True)`. -/
def sortDesc : List Word → List Word
  | [] => []
  | x :: xs => insertDesc x (sortDesc xs)

/-- Source `get_most_difficult_words` (lines 164-184): backfill counts, sort
descending by count (stable), drop zero-count words, truncate to `limit`. -/
def get_most_difficult_words (ws : List Word) (limit : Nat) : List Word :=
  ((sortDesc (ensureCounts ws)).filter (fun w => decide (0 < cnt w))).take limit

/-- The record returned by `get_completion_stats`. -/
structure CompletionStats where
  total : Nat
  correct : Nat
  incorrect : Nat
  not_answered : Nat
  completed : Bool
  total_incorrect_attempts : Nat
  words_with_errors : Nat
  most_difficult_count : Nat
deriving Repr, DecidableEq

/-- Source `get_completion_stats` (lines 244-273). -/
def get_completion_stats (ws : List Word) : CompletionStats :=
  let ws := ensureCounts ws
  { total := ws.length
    correct := (ws.filter (fun w => w.status == "correct")).length
    incorrect := (ws.filter (fun w => w.status == "incorrect")).length
    not_answered := (ws.filter (fun w => w.status == "notyetanswered")).length
    completed :=
      (ws.filter (fun w => w.status == "notyetanswered")).length == 0 &&
      (ws.filter (fun w => w.status == "incorrect")).length == 0
    total_incorrect_attempts := (ws.map cnt).sum
    words_with_errors := (ws.filter (fun w => decide (0 < cnt w))).length
    most_difficult_count := (ws.map cnt).foldr max 0 }

/-- Document-level difficulty marking: the source mutates
`progress_data[word_level]` in place. -/
def doc_mark_word_difficulty (doc : Doc) (level artikel deutsch english : String)
    (is_difficult : Bool) : Doc :=
  setLevelWords doc level
    (mark_word_difficulty (doc level) artikel deutsch english is_difficult).1

/-! ### Shared lemmas: the first-match scan -/

/-- Proof-layer companion of the source's scan loops: apply `f` to the first
element satisfying `p`, leave everything else as is. -/
def applyFirst (p : Word → Bool) (f : Word → Word) : List Word → List Word
  | [] => []
  | w :: rest => if p w then f w :: rest else w :: applyFirst p f rest

theorem firstIdx_none_iff {α : Type} (p : α → Bool) (l : List α) :
    firstIdx p l = none ↔ ∀ x ∈ l, p x = false := by
  induction l with
  | nil => simp [firstIdx]
  | cons x xs ih =>
    by_cases hx : p x <;> simp [firstIdx, hx, ih]

theorem firstIdx_some_elim {α : Type} {p : α → Bool} {l : List α} {i : Nat}
    (h : firstIdx p l = some i) :
    ∃ x, l[i]? = some x ∧ p x = true := by
  induction l generalizing i with
  | nil => simp [firstIdx] at h
  | cons y ys ih =>
    by_cases hy : p y
    · simp [firstIdx, hy] at h
      subst h
      exact ⟨y, by simp, hy⟩
    · simp [firstIdx, hy, Option.map_eq_some'] at h
      obtain ⟨j, hj, rfl⟩ := h
      obtain ⟨x, hx, hpx⟩ := ih hj
      exact ⟨x, by simpa using hx, hpx⟩

theorem applyFirst_of_none {p : Word → Bool} {f : Word → Word} {ws : List Word}
    (h : firstIdx p ws = none) : applyFirst p f ws = ws := by
  induction ws with
  | nil => rfl
  | cons w rest ih =>
    by_cases hw : p w
    · simp [firstIdx, hw] at h
    · simp [firstIdx, hw] at h
      simp [applyFirst, hw, ih h]

theorem applyFirst_of_some {p : Word → Bool} {f : Word → Word} {ws : List Word} {i : Nat}
    {w : Word} (h : firstIdx p ws = some i) (hw : ws[i]? = some w) :
    applyFirst p f ws = ws.set i (f w) := by
  induction ws generalizing i with
  | nil => simp [firstIdx] at h
  | cons y ys ih =>
    by_cases hy : p y
    · simp [firstIdx, hy] at h
      subst h
      simp at hw
      subst hw
      simp [applyFirst, hy]
    · simp [firstIdx, hy, Option.map_eq_some'] at h
      obtain ⟨j, hj, rfl⟩ := h
      simp at hw
      simp [applyFirst, hy, ih hj hw]

theorem firstIdx_set_of_sat {p : Word → Bool} {ws : List Word} {i : Nat} {w : Word}
    (h : firstIdx p ws = some i) (hw : p w = true) :
    firstIdx p (ws.set i w) = some i := by
  induction ws generalizing i with
  | nil => simp [firstIdx] at h
  | cons y ys ih =>
    by_cases hy : p y
    · simp [firstIdx, hy] at h
      subst h
      simp [firstIdx, hw]
    · simp [firstIdx, hy, Option.map_eq_some'] at h
      obtain ⟨j, hj, rfl⟩ := h
      simp [List.set, firstIdx, hy, ih hj]

/-! ### The store operations are first-match scans -/

theorem update_word_status_eq (ws : List Word) (a d e s : String) :
    update_word_status ws a d e s =
      (applyFirst (wordMatches a d e) (fun w => { w with status := s }) ws,
       (firstIdx (wordMatches a d e) ws).isSome) := by
  induction ws with
  | nil => rfl
  | cons w rest ih =>
    by_cases hw : wordMatches a d e w
    · simp [update_word_status, applyFirst, firstIdx, hw]
    · simp [update_word_status, applyFirst, firstIdx, hw, ih]

theorem reset_word_incorrect_count_eq (ws : List Word) (a d e : String) :
    reset_word_incorrect_count ws a d e =
      (applyFirst (wordMatches a d e) (fun w => { w with incorrect_count := some 0 }) ws,
       (firstIdx (wordMatches a d e) ws).isSome) := by
  induction ws with
  | nil => rfl
  | cons w rest ih =>
    by_cases hw : wordMatches a d e w
    · simp [reset_word_incorrect_count, applyFirst, firstIdx, hw]
    · simp [reset_word_incorrect_count, applyFirst, firstIdx, hw, ih]

theorem mark_word_difficulty_eq (ws : List Word) (a d e : String) (hard : Bool) :
    mark_word_difficulty ws a d e hard =
      (applyFirst (wordMatches a d e)
         (fun w => { w with difficulty := if hard then some "hard" else none }) ws,
       (firstIdx (wordMatches a d e) ws).isSome) := by
  induction ws with
  | nil => rfl
  | cons w rest ih =>
    by_cases hw : wordMatches a d e w
    · simp [mark_word_difficulty, applyFirst, firstIdx, hw]
    · simp [mark_word_difficulty, applyFirst, firstIdx, hw, ih]

theorem sync_progress_with_vocab_change_eq (ws : List Word)
    (oe og oa ne ng : String) (na : Option String) :
    sync_progress_with_vocab_change ws oe og oa ne ng na =
      (applyFirst (wordMatches oa og oe) (fun w => apply_sync_patch w ne ng na) ws,
       (firstIdx (wordMatches oa og oe) ws).isSome) := by
  induction ws with
  | nil => rfl
  | cons w rest ih =>
    by_cases hw : wordMatches oa og oe w
    · simp [sync_progress_with_vocab_change, applyFirst, firstIdx, hw]
    · simp [sync_progress_with_vocab_change, applyFirst, firstIdx, hw, ih]

theorem increment_incorrect_count_fst (ws : List Word) (a d e : String) :
    (increment_incorrect_count ws a d e).1 =
      applyFirst (wordMatches a d e)
        (fun w => { w with incorrect_count := some (cnt w + 1) }) ws := by
  induction ws with
  | nil => rfl
  | cons w rest ih =>
    by_cases hw : wordMatches a d e w
    · simp [increment_incorrect_count, applyFirst, hw]
    · simp [increment_incorrect_count, applyFirst, hw, ih]

theorem increment_incorrect_count_snd_some {ws : List Word} {a d e : String} {i : Nat}
    {w : Word} (h : firstIdx (wordMatches a d e) ws = some i) (hw : ws[i]? = some w) :
    (increment_incorrect_count ws a d e).2 = cnt w + 1 := by
  induction ws generalizing i with
  | nil => simp [firstIdx] at h
  | cons y ys ih =>
    by_cases hy : wordMatches a d e y
    · simp [firstIdx, hy] at h
      subst h
      simp at hw
      subst hw
      simp [increment_incorrect_count, hy]
    · simp [firstIdx, hy, Option.map_eq_some'] at h
      obtain ⟨j, hj, rfl⟩ := h
      simp at hw
      simp [increment_incorrect_count, hy, ih hj hw]

theorem increment_incorrect_count_snd_none {ws : List Word} {a d e : String}
    (h : firstIdx (wordMatches a d e) ws = none) :
    (increment_incorrect_count ws a d e).2 = 0 := by
  induction ws with
  | nil => rfl
  | cons y ys ih =>
    by_cases hy : wordMatches a d e y
    · simp [firstIdx, hy] at h
    · simp [firstIdx, hy] at h
      simp [increment_incorrect_count, hy, ih h]

/-- The identity-tuple test only reads the three identity fields, so any
update of the other fields preserves it. -/
theorem wordMatches_update_status (a d e s : String) (w : Word) :
    wordMatches a d e { w with status := s } = wordMatches a d e w := rfl

theorem wordMatches_update_count (a d e : String) (c : Option Nat) (w : Word) :
    wordMatches a d e { w with incorrect_count := c } = wordMatches a d e w := rfl

theorem wordMatches_update_difficulty (a d e : String) (df : Option String) (w : Word) :
    wordMatches a d e { w with difficulty := df } = wordMatches a d e w := rfl

theorem firstIdx_get_sat {p : Word → Bool} {ws : List Word} {i : Nat} {w : Word}
    (h : firstIdx p ws = some i) (hw : ws[i]? = some w) : p w = true := by
  obtain ⟨x, hx, hpx⟩ := firstIdx_some_elim h
  rw [hw] at hx
  cases hx
  exact hpx

theorem applyFirst_idem {p : Word → Bool} {f : Word → Word}
    (hpf : ∀ w, p (f w) = p w) (hff : ∀ w, f (f w) = f w) (ws : List Word) :
    applyFirst p f (applyFirst p f ws) = applyFirst p f ws := by
  induction ws with
  | nil => rfl
  | cons w rest ih =>
    by_cases hw : p w
    · simp [applyFirst, hw, hpf, hff]
    · simp [applyFirst, hw, ih]

/-! ### Sample data used by the witness theorems -/

def sampleA : Word :=
  { artikel := "", deutsch := "apfel", english := "apple",
    status := "correct", incorrect_count := some 0, difficulty := none }

def sampleB : Word :=
  { artikel := "der", deutsch := "hund", english := "dog",
    status := "notyetanswered", incorrect_count := some 2, difficulty := none }

/-! ### Claims -/

/-- C9: for every document, level and word identity, marking a word difficult
twice in a row yields exactly the same document state as marking it once. -/
theorem claim_C9 (doc : Doc) (level artikel deutsch english l : String) :
    doc_mark_word_difficulty
      (doc_mark_word_difficulty doc level artikel deutsch english true)
      level artikel deutsch english true l =
    doc_mark_word_difficulty doc level artikel deutsch english true l := by
  have hlist : ∀ ws : List Word,
      (mark_word_difficulty (mark_word_difficulty ws artikel deutsch english true).1
        artikel deutsch english true).1 =
      (mark_word_difficulty ws artikel deutsch english true).1 := by
    intro ws
    simp only [mark_word_difficulty_eq]
    refine applyFirst_idem ?_ ?_ ws
    · intro w
      rfl
    · intro w
      rfl
  unfold doc_mark_word_difficulty setLevelWords
  by_cases hl : l = level
  · simp [hl, hlist]
  · simp [hl]

/-- C10: each identity-based mutating operation modifies at most the first
matching record of the level (leaving every other record of that level, and
every other level, unchanged), and when no record matches it returns its
failure value (`false` or `0`) and leaves the list unchanged. -/
theorem claim_C10 (ws : List Word) (artikel deutsch english new_status : String)
    (hard : Bool) :
    (∀ i w, firstIdx (wordMatches artikel deutsch english) ws = some i →
      ws[i]? = some w →
      update_word_status ws artikel deutsch english new_status =
        (ws.set i { w with status := new_status }, true) ∧
      increment_incorrect_count ws artikel deutsch english =
        (ws.set i { w with incorrect_count := some (cnt w + 1) }, cnt w + 1) ∧
      reset_word_incorrect_count ws artikel deutsch english =
        (ws.set i { w with incorrect_count := some 0 }, true) ∧
      mark_word_difficulty ws artikel deutsch english hard =
        (ws.set i { w with difficulty := if hard then some "hard" else none }, true) ∧
      (∀ j, j ≠ i →
        (update_word_status ws artikel deutsch english new_status).1[j]? = ws[j]? ∧
        (increment_incorrect_count ws artikel deutsch english).1[j]? = ws[j]? ∧
        (reset_word_incorrect_count ws artikel deutsch english).1[j]? = ws[j]? ∧
        (mark_word_difficulty ws artikel deutsch english hard).1[j]? = ws[j]?)) ∧
    ((∀ w ∈ ws, wordMatches artikel deutsch english w = false) →
      update_word_status ws artikel deutsch english new_status = (ws, false) ∧
      increment_incorrect_count ws artikel deutsch english = (ws, 0) ∧
      reset_word_incorrect_count ws artikel deutsch english = (ws, false) ∧
      mark_word_difficulty ws artikel deutsch english hard = (ws, false)) ∧
    (∀ (doc : Doc) (level l : String) (ws2 : List Word), l ≠ level →
      setLevelWords doc level ws2 l = doc l) := by
  refine ⟨?_, ?_, ?_⟩
  · intro i w hfirst hget
    have hupd := update_word_status_eq ws artikel deutsch english new_status
    have hinc1 := increment_incorrect_count_fst ws artikel deutsch english
    have hinc2 := increment_incorrect_count_snd_some hfirst hget
    have hres := reset_word_incorrect_count_eq ws artikel deutsch english
    have hmark := mark_word_difficulty_eq ws artikel deutsch english hard
    have happ := fun f => applyFirst_of_some (f := f) hfirst hget
    refine ⟨?_, ?_, ?_, ?_, ?_⟩
    · rw [hupd, happ, hfirst]
      rfl
    · rw [Prod.ext_iff]
      exact ⟨by rw [hinc1, happ], by simpa using hinc2⟩
    · rw [hres, happ, hfirst]
      rfl
    · rw [hmark, happ, hfirst]
      rfl
    · intro j hj
      refine ⟨?_, ?_, ?_, ?_⟩ <;>
        simp [hupd, hinc1, hres, hmark, happ, List.getElem?_set_ne (Ne.symm hj)]
  · intro hnone
    have hfi : firstIdx (wordMatches artikel deutsch english) ws = none :=
      (firstIdx_none_iff _ _).mpr hnone
    have happ := fun f => applyFirst_of_none (p := wordMatches artikel deutsch english)
      (f := f) hfi
    refine ⟨?_, ?_, ?_, ?_⟩
    · rw [update_word_status_eq, happ, hfi]
      rfl
    · rw [Prod.ext_iff]
      exact ⟨by rw [increment_incorrect_count_fst, happ],
             by simpa using increment_incorrect_count_snd_none hfi⟩
    · rw [reset_word_incorrect_count_eq, happ, hfi]
      rfl
    · rw [mark_word_difficulty_eq, happ, hfi]
      rfl
  · intro doc level l ws2 hl
    simp [setLevelWords, hl]

theorem claim_C10_witness :
    update_word_status [sampleA, sampleB] "der" "hund" "dog" "correct" =
      ([sampleA, { sampleB with status := "correct" }], true) ∧
    increment_incorrect_count [sampleA] "die" "katze" "cat" = ([sampleA], 0) := by
  constructor
  · have h := (claim_C10 [sampleA, sampleB] "der" "hund" "dog" "correct" true).1 1 sampleB
      (by decide) (by decide)
    simpa using h.1
  · have h := (claim_C10 [sampleA] "die" "katze" "cat" "correct" true).2.1 (by decide)
    exact h.2.1

/-- C1: on a submission routed to normal scoring, the matched word's fields
change exactly as the state machine prescribes: first-attempt correct sets
`status` to `correct` and keeps the count, first-attempt incorrect sets
`status` to `incorrect` and increments the count by exactly 1, a correct
retry changes nothing, an incorrect retry increments the count by exactly 1
and keeps the status. -/
theorem claim_C1 (ws : List Word) (artikel deutsch english : String) (i : Nat) (w : Word)
    (hfirst : firstIdx (wordMatches artikel deutsch english) ws = some i)
    (hget : ws[i]? = some w) :
    (∃ w1, (process_answer ws artikel deutsch english true false)[i]? = some w1 ∧
      w1.status = "correct" ∧ cnt w1 = cnt w) ∧
    (∃ w2, (process_answer ws artikel deutsch english false false)[i]? = some w2 ∧
      w2.status = "incorrect" ∧ cnt w2 = cnt w + 1) ∧
    process_answer ws artikel deutsch english true true = ws ∧
    (∃ w3, (process_answer ws artikel deutsch english false true)[i]? = some w3 ∧
      w3.status = w.status ∧ cnt w3 = cnt w + 1) := by
  have hp : wordMatches artikel deutsch english w = true := firstIdx_get_sat hfirst hget
  have hi : i < ws.length := by
    rcases List.getElem?_eq_some.mp hget with ⟨h, _⟩
    exact h
  refine ⟨?_, ?_, rfl, ?_⟩
  · refine ⟨{ w with status := "correct" }, ?_, rfl, rfl⟩
    show (update_word_status ws artikel deutsch english "correct").1[i]? = _
    rw [update_word_status_eq, applyFirst_of_some hfirst hget]
    simp [List.getElem?_set_self, hi]
  · set w2 : Word := { w with status := "incorrect", incorrect_count := some (cnt w + 1) }
      with hw2
    refine ⟨w2, ?_, rfl, by simp [hw2, cnt]⟩
    show ((increment_incorrect_count
      (update_word_status ws artikel deutsch english "incorrect").1
      artikel deutsch english).1)[i]? = _
    rw [update_word_status_eq]
    have happ1 := applyFirst_of_some
      (f := fun w => { w with status := "incorrect" }) hfirst hget
    rw [happ1]
    set w1 : Word := { w with status := "incorrect" } with hw1
    have hfirst1 : firstIdx (wordMatches artikel deutsch english) (ws.set i w1) = some i :=
      firstIdx_set_of_sat hfirst (by simpa [hw1, wordMatches_update_status] using hp)
    have hget1 : (ws.set i w1)[i]? = some w1 := by
      simp [List.getElem?_set_self, hi]
    rw [increment_incorrect_count_fst, applyFirst_of_some hfirst1 hget1, List.set_set]
    have hcnt : cnt w1 = cnt w := rfl
    simp [List.getElem?_set_self, hi, hcnt, hw1, hw2]
  · refine ⟨{ w with incorrect_count := some (cnt w + 1) }, ?_, rfl, by simp [cnt]⟩
    show (increment_incorrect_count ws artikel deutsch english).1[i]? = _
    rw [increment_incorrect_count_fst, applyFirst_of_some hfirst hget]
    simp [List.getElem?_set_self, hi]

/-! ### Lemmas about Python `strip` -/

/-- The list neither is headed by whitespace. -/
def NoLeadSpace (l : List Char) : Prop :=
  ∀ c, l.head? = some c → isSpaceChar c = false

/-- The list does not end in whitespace. -/
def NoTrailSpace (l : List Char) : Prop := NoLeadSpace l.reverse

theorem noLead_nil : NoLeadSpace [] := by
  intro c hc
  simp at hc

theorem noLead_dropWhile (l : List Char) : NoLeadSpace (l.dropWhile isSpaceChar) := by
  induction l with
  | nil => exact noLead_nil
  | cons x xs ih =>
    by_cases hx : isSpaceChar x = true
    · rw [List.dropWhile_cons, if_pos hx]
      exact ih
    · rw [List.dropWhile_cons, if_neg hx]
      intro c hc
      simp at hc
      subst hc
      exact Bool.eq_false_iff.mpr hx

theorem dropWhile_eq_self {l : List Char} (h : NoLeadSpace l) :
    l.dropWhile isSpaceChar = l := by
  cases l with
  | nil => rfl
  | cons x xs =>
    rw [List.dropWhile_cons, if_neg (Bool.eq_false_iff.mp (h x (by simp)))]

theorem noLead_dropLeading (l : List Char) : NoLeadSpace (dropLeading l) :=
  noLead_dropWhile l

theorem noTrail_dropTrailing (l : List Char) : NoTrailSpace (dropTrailing l) := by
  unfold NoTrailSpace dropTrailing
  rw [List.reverse_reverse]
  exact noLead_dropWhile _

theorem dropLeading_eq_self {l : List Char} (h : NoLeadSpace l) : dropLeading l = l :=
  dropWhile_eq_self h

theorem dropTrailing_eq_self {l : List Char} (h : NoTrailSpace l) : dropTrailing l = l := by
  unfold dropTrailing
  rw [dropWhile_eq_self h, List.reverse_reverse]

theorem pyStrip_eq_self {l : List Char} (h1 : NoLeadSpace l) (h2 : NoTrailSpace l) :
    pyStrip l = l := by
  unfold pyStrip
  rw [dropLeading_eq_self h1, dropTrailing_eq_self h2]

theorem dropTrailing_pref (l : List Char) : dropTrailing l <+: l := by
  have hsuffix : (l.reverse.dropWhile isSpaceChar) <:+ l.reverse :=
    List.dropWhile_suffix _
  have := List.reverse_prefix.mpr hsuffix
  simpa [dropTrailing] using this

theorem noLead_of_pref {l1 l2 : List Char} (h : l1 <+: l2) (h2 : NoLeadSpace l2) :
    NoLeadSpace l1 := by
  intro c hc
  obtain ⟨t, rfl⟩ := h
  cases l1 with
  | nil => simp at hc
  | cons x xs =>
    simp at hc
    subst hc
    exact h2 x (by simp)

theorem noLead_pyStrip (l : List Char) : NoLeadSpace (pyStrip l) :=
  noLead_of_pref (dropTrailing_pref _) (noLead_dropLeading l)

theorem noTrail_pyStrip (l : List Char) : NoTrailSpace (pyStrip l) :=
  noTrail_dropTrailing _

theorem pyStrip_idem (l : List Char) : pyStrip (pyStrip l) = pyStrip l :=
  pyStrip_eq_self (noLead_pyStrip l) (noTrail_pyStrip l)

theorem pyStrip_cons_space (l : List Char) : pyStrip (' ' :: l) = pyStrip l := by
  unfold pyStrip dropLeading
  rw [List.dropWhile_cons, if_pos (by decide)]

theorem pyStrip_append_stripped {a c : List Char}
    (ha1 : NoLeadSpace a) (ha2 : NoTrailSpace a) (hane : a ≠ [])
    (hc2 : NoTrailSpace c) (hcne : c ≠ []) :
    pyStrip (a ++ ' ' :: c) = a ++ ' ' :: c := by
  apply pyStrip_eq_self
  · intro ch hch
    cases a with
    | nil => exact absurd rfl hane
    | cons x xs =>
      simp at hch
      subst hch
      exact ha1 x (by simp)
  · intro ch hch
    cases hcrev : c.reverse with
    | nil => exact absurd (by simpa using congrArg List.reverse hcrev) hcne
    | cons y ys =>
      have hhead : (a ++ ' ' :: c).reverse.head? = some y := by
        rw [List.reverse_append, List.reverse_cons, hcrev]
        simp
      rw [hhead] at hch
      cases hch
      exact hc2 ch (by rw [hcrev]; simp)

theorem pyStrip_append_space_last {a : List Char}
    (ha1 : NoLeadSpace a) (ha2 : NoTrailSpace a) :
    pyStrip (a ++ [' ']) = a := by
  cases a with
  | nil => rfl
  | cons x xs =>
    have hx : isSpaceChar x = false := ha1 x (by simp)
    unfold pyStrip
    have hlead : dropLeading ((x :: xs) ++ [' ']) = (x :: xs) ++ [' '] := by
      unfold dropLeading
      rw [List.cons_append, List.dropWhile_cons, if_neg (by simp [hx])]
    rw [hlead]
    unfold dropTrailing
    rw [List.reverse_append,
      show ([' '] : List Char).reverse = [' '] from rfl, List.singleton_append,
      List.dropWhile_cons, if_pos (by decide),
      dropWhile_eq_self ha2, List.reverse_reverse]

theorem ne_append_space {u c : List Char} (h : NoTrailSpace u) : u ≠ c ++ [' '] := by
  intro he
  subst he
  have hhead : (c ++ [' ']).reverse.head? = some ' ' := by simp
  have := h ' ' hhead
  rw [show isSpaceChar ' ' = true from by decide] at this
  cases this

/-- C2: with `articlesMandatory` off, a submission is judged correct exactly
when its normalised form equals the bare normalised answer, the (stripped)
article-prefixed form, or the article-suffixed form; with `articlesMandatory`
on and a non-empty cleaned article, only the two article-bearing forms are
accepted and the bare answer by itself is judged incorrect. -/
theorem claim_C2 (user correct artikel : List Char) :
    (check_answer user correct artikel false = true ↔
      (clean user = clean correct ∨
       clean user = pyStrip (artikel_clean artikel ++ ' ' :: clean correct) ∨
       clean user = clean correct ++ ' ' :: artikel_clean artikel)) ∧
    (artikel_clean artikel ≠ [] →
      ((check_answer user correct artikel true = true ↔
        (clean user = pyStrip (artikel_clean artikel ++ ' ' :: clean correct) ∨
         clean user = clean correct ++ ' ' :: artikel_clean artikel)) ∧
       (clean user = clean correct →
         check_answer user correct artikel true = false))) := by
  have hucT : NoTrailSpace (clean user) := noTrail_pyStrip _
  have hccT : NoTrailSpace (clean correct) := noTrail_pyStrip _
  have hacL : NoLeadSpace (artikel_clean artikel) := by
    unfold artikel_clean
    cases h : artikel.isEmpty
    · simp only [Bool.false_eq_true, if_neg]
      exact noLead_pyStrip _
    · simp only [if_pos rfl]
      exact noLead_nil
  have hacT : NoTrailSpace (artikel_clean artikel) := by
    unfold artikel_clean
    cases h : artikel.isEmpty
    · simp only [Bool.false_eq_true, if_neg]
      exact noTrail_pyStrip _
    · simp only [if_pos rfl]
      exact noLead_nil
  have hunfold_false : check_answer user correct artikel false =
      (clean user == clean correct ||
       clean user == pyStrip (artikel_clean artikel ++ ' ' :: clean correct) ||
       (!(artikel_clean artikel).isEmpty &&
         (clean user == clean correct ++ ' ' :: artikel_clean artikel))) := rfl
  have hunfold_true : (artikel_clean artikel).isEmpty = false →
      check_answer user correct artikel true =
        (clean user == pyStrip (artikel_clean artikel ++ ' ' :: clean correct) ||
         clean user == clean correct ++ ' ' :: artikel_clean artikel) := by
    intro hne
    simp only [check_answer]
    rw [hne]
    rfl
  by_cases hae : artikel_clean artikel = []
  · have hcwa : pyStrip (artikel_clean artikel ++ ' ' :: clean correct) =
        clean correct := by
      rw [hae]
      show pyStrip (' ' :: clean correct) = clean correct
      rw [pyStrip_cons_space]
      exact pyStrip_idem _
    constructor
    · rw [hunfold_false, hcwa, hae]
      have hne3 : clean user ≠ clean correct ++ ' ' :: ([] : List Char) :=
        ne_append_space hucT
      simp [beq_iff_eq, hne3]
    · intro hne
      exact absurd hae hne
  · have hie : (artikel_clean artikel).isEmpty = false := by
      cases h : (artikel_clean artikel).isEmpty
      · rfl
      · exact absurd (by simpa using h) hae
    constructor
    · rw [hunfold_false, hie]
      simp [beq_iff_eq, or_assoc]
    · intro hne
      refine ⟨?_, ?_⟩
      · rw [hunfold_true hie]
        simp [beq_iff_eq]
      · intro hueq
        rw [hunfold_true hie]
        have h1 : clean user ≠ clean correct ++ ' ' :: artikel_clean artikel := by
          rw [hueq]
          intro he
          have hlen := congrArg List.length he
          simp only [List.length_append, List.length_cons] at hlen
          omega
        have h2 : clean user ≠
            pyStrip (artikel_clean artikel ++ ' ' :: clean correct) := by
          by_cases hcce : clean correct = []
          · rw [hueq, hcce]
            rw [show artikel_clean artikel ++ ' ' :: ([] : List Char) =
                artikel_clean artikel ++ [' '] from rfl]
            rw [pyStrip_append_space_last hacL hacT]
            exact fun he => hae he.symm
          · rw [hueq, pyStrip_append_stripped hacL hacT hae hccT hcce]
            intro he
            have hlen := congrArg List.length he
            simp only [List.length_append, List.length_cons] at hlen
            omega
        rw [Bool.or_eq_false_iff]
        constructor
        · rw [beq_eq_false_iff_ne]
          exact h2
        · rw [beq_eq_false_iff_ne]
          exact h1

theorem claim_C2_witness :
    check_answer "hund".toList "Hund".toList "der".toList true = false :=
  ((claim_C2 "hund".toList "Hund".toList "der".toList).2 (by decide)).2 (by decide)

theorem insertDesc_perm (w : Word) (l : List Word) : (insertDesc w l).Perm (w :: l) := by
  induction l with
  | nil => exact List.Perm.refl _
  | cons x xs ih =>
    by_cases h : cnt w < cnt x
    · simp only [insertDesc, if_pos h]
      exact (ih.cons x).trans (List.Perm.swap w x xs)
    · simp only [insertDesc, if_neg h]
      exact List.Perm.refl _

theorem sortDesc_perm (l : List Word) : (sortDesc l).Perm l := by
  induction l with
  | nil => exact List.Perm.refl _
  | cons x xs ih => exact (insertDesc_perm x (sortDesc xs)).trans (ih.cons x)

theorem pairwise_insertDesc {l : List Word}
    (h : l.Pairwise (fun a b => cnt b ≤ cnt a)) (w : Word) :
    (insertDesc w l).Pairwise (fun a b => cnt b ≤ cnt a) := by
  induction l with
  | nil => simp [insertDesc]
  | cons x xs ih =>
    rcases List.pairwise_cons.mp h with ⟨hx, hxs⟩
    by_cases hc : cnt w < cnt x
    · simp only [insertDesc, if_pos hc]
      refine List.pairwise_cons.mpr ⟨?_, ih hxs⟩
      intro y hy
      rcases List.mem_cons.mp ((insertDesc_perm w xs).mem_iff.mp hy) with rfl | hy2
      · exact Nat.le_of_lt hc
      · exact hx y hy2
    · simp only [insertDesc, if_neg hc]
      refine List.pairwise_cons.mpr ⟨?_, h⟩
      intro y hy
      rcases List.mem_cons.mp hy with rfl | hy2
      · exact Nat.le_of_not_lt hc
      · exact Nat.le_trans (hx y hy2) (Nat.le_of_not_lt hc)

theorem pairwise_sortDesc (l : List Word) :
    (sortDesc l).Pairwise (fun a b => cnt b ≤ cnt a) := by
  induction l with
  | nil => simp [sortDesc]
  | cons x xs ih => exact pairwise_insertDesc ih x

theorem filter_insertDesc_eq {w : Word} {c : Nat} (h : cnt w = c) (l : List Word) :
    (insertDesc w l).filter (fun x => cnt x == c) =
      w :: l.filter (fun x => cnt x == c) := by
  induction l with
  | nil => simp [insertDesc, h]
  | cons x xs ih =>
    by_cases hc : cnt w < cnt x
    · have hxc : (cnt x == c) = false := by
        rw [beq_eq_false_iff_ne]
        omega
      simp only [insertDesc, if_pos hc]
      rw [List.filter_cons_of_neg (by simp [hxc]), ih,
        List.filter_cons_of_neg (by simp [hxc])]
    · simp only [insertDesc, if_neg hc]
      rw [List.filter_cons_of_pos (by simp [h])]

theorem filter_insertDesc_ne {w : Word} {c : Nat} (h : ¬ cnt w = c) (l : List Word) :
    (insertDesc w l).filter (fun x => cnt x == c) =
      l.filter (fun x => cnt x == c) := by
  have hwc : (cnt w == c) = false := by
    rw [beq_eq_false_iff_ne]
    exact h
  induction l with
  | nil => simp [insertDesc, hwc]
  | cons x xs ih =>
    by_cases hc : cnt w < cnt x
    · simp only [insertDesc, if_pos hc, List.filter_cons, ih]
    · simp only [insertDesc, if_neg hc, List.filter_cons, hwc]
      simp

theorem filter_sortDesc (l : List Word) (c : Nat) :
    (sortDesc l).filter (fun x => cnt x == c) = l.filter (fun x => cnt x == c) := by
  induction l with
  | nil => rfl
  | cons x xs ih =>
    show (insertDesc x (sortDesc xs)).filter _ = _
    by_cases h : cnt x = c
    · rw [filter_insertDesc_eq h, ih]
      simp [List.filter_cons, h]
    · rw [filter_insertDesc_ne h, ih]
      have hxc : (cnt x == c) = false := by
        rw [beq_eq_false_iff_ne]
        exact h
      simp [List.filter_cons, hxc]

/-- C5: the most-difficult-words query returns words sorted by
`incorrect_count` in descending order, excludes every zero-count word,
returns at most `limit` words, and the underlying sort is a permutation that
keeps words of equal count in their original sequence order (the filter by
any fixed count value is preserved), which pins down the tie-breaking. -/
theorem claim_C5 (ws : List Word) (limit : Nat) :
    (get_most_difficult_words ws limit).Pairwise (fun a b => cnt b ≤ cnt a) ∧
    (∀ w ∈ get_most_difficult_words ws limit, 0 < cnt w) ∧
    (get_most_difficult_words ws limit).length ≤ limit ∧
    (sortDesc (ensureCounts ws)).Perm (ensureCounts ws) ∧
    (∀ c : Nat, (sortDesc (ensureCounts ws)).filter (fun w => cnt w == c) =
      (ws.filter (fun w => cnt w == c)).map
        (fun w => { w with incorrect_count := some (cnt w) })) := by
  refine ⟨?_, ?_, List.length_take_le _ _, sortDesc_perm _, ?_⟩
  · exact ((pairwise_sortDesc (ensureCounts ws)).filter _).sublist
      (List.take_sublist _ _)
  · intro w hw
    have hw2 := List.mem_of_mem_take hw
    have := (List.mem_filter.mp hw2).2
    simpa using this
  · intro c
    rw [filter_sortDesc]
    simp only [ensureCounts, List.filter_map]
    rfl

theorem filter_status_ensure (l : List Word) (s : String) :
    (ensureCounts l).filter (fun w => w.status == s) =
      (l.filter (fun w => w.status == s)).map
        (fun w => { w with incorrect_count := some (cnt w) }) := by
  simp only [ensureCounts, List.filter_map]
  rfl

theorem filter_status_map_count (l : List Word) (g : Word → Option Nat) (s : String) :
    (l.map (fun w => { w with incorrect_count := g w })).filter
        (fun w => w.status == s) =
      (l.filter (fun w => w.status == s)).map
        (fun w => { w with incorrect_count := g w }) := by
  simp only [List.filter_map]
  rfl

theorem completed_eq (l : List Word) :
    (get_completion_stats l).completed =
      ((l.filter (fun w => w.status == "notyetanswered")).length == 0 &&
       ((l.filter (fun w => w.status == "incorrect")).length == 0)) := by
  simp only [get_completion_stats, filter_status_ensure, List.length_map]

/-- C4: a level's `completed` statistic is true iff it has no word whose
status is `notyetanswered` and none whose status is `incorrect`; under the
documented status invariant that is the same as every word being `correct`;
and the flag is independent of the words' `incorrect_count` values. -/
theorem claim_C4 (ws : List Word) :
    ((get_completion_stats ws).completed = true ↔
      (ws.filter (fun w => w.status == "notyetanswered")).length = 0 ∧
      (ws.filter (fun w => w.status == "incorrect")).length = 0) ∧
    ((∀ w ∈ ws, w.status = "notyetanswered" ∨ w.status = "correct" ∨
        w.status = "incorrect") →
      ((get_completion_stats ws).completed = true ↔ ∀ w ∈ ws, w.status = "correct")) ∧
    (∀ g : Word → Option Nat,
      (get_completion_stats
        (ws.map (fun w => { w with incorrect_count := g w }))).completed =
      (get_completion_stats ws).completed) := by
  have hbase : (get_completion_stats ws).completed = true ↔
      (ws.filter (fun w => w.status == "notyetanswered")).length = 0 ∧
      (ws.filter (fun w => w.status == "incorrect")).length = 0 := by
    rw [completed_eq]
    simp
  refine ⟨hbase, ?_, ?_⟩
  · intro hstatus
    rw [hbase]
    constructor
    · rintro ⟨h1, h2⟩ w hw
      rcases hstatus w hw with hs | hs | hs
      · exfalso
        have hmem : w ∈ ws.filter (fun w => w.status == "notyetanswered") :=
          List.mem_filter.mpr ⟨hw, by simp [hs]⟩
        rw [List.length_eq_zero.mp h1] at hmem
        simp at hmem
      · exact hs
      · exfalso
        have hmem : w ∈ ws.filter (fun w => w.status == "incorrect") :=
          List.mem_filter.mpr ⟨hw, by simp [hs]⟩
        rw [List.length_eq_zero.mp h2] at hmem
        simp at hmem
    · intro hall
      constructor
      · rw [List.length_eq_zero]
        rw [List.filter_eq_nil_iff]
        intro w hw
        simp [hall w hw]
      · rw [List.length_eq_zero]
        rw [List.filter_eq_nil_iff]
        intro w hw
        simp [hall w hw]
  · intro g
    rw [completed_eq, completed_eq, filter_status_map_count, filter_status_map_count]
    simp

theorem claim_C4_witness :
    (get_completion_stats [sampleA]).completed = true ↔
      ∀ w ∈ [sampleA], w.status = "correct" :=
  (claim_C4 [sampleA]).2.1 (by decide)

/-- C3: with a positive `minIncorrectCount` the recap selection (status
filter left empty) keeps exactly the words whose count reaches the minimum,
regardless of status; without it the practice selection keeps exactly the
words whose status is `notyetanswered` or `incorrect`; in both cases the
`difficultyOnly` flag further restricts to words marked `hard`. -/
theorem claim_C3 (ws : List Word) (m : Nat) (difficultyOnly : Bool) :
    (0 < m →
      recap_filter_words ws "" (if difficultyOnly then "hard" else "") m none =
        ws.filter (fun w => decide (m ≤ cnt w) &&
          (!difficultyOnly || w.difficulty == some "hard"))) ∧
    get_words_to_practice ws difficultyOnly =
      ws.filter (fun w =>
        (w.status == "notyetanswered" || w.status == "incorrect") &&
        (!difficultyOnly || w.difficulty == some "hard")) := by
  constructor
  · intro hm
    unfold recap_filter_words
    apply List.filter_congr
    intro w hw
    by_cases hc : cnt w < m
    · cases difficultyOnly <;>
        simp [recap_keeps, hc, Nat.not_le.mpr hc]
    · cases difficultyOnly <;>
        cases hdiff : w.difficulty <;>
        simp [recap_keeps, hc, Nat.not_lt.mp hc, hdiff]
  · unfold get_words_to_practice
    cases difficultyOnly
    · simp only [if_neg]
      apply List.filter_congr
      intro w hw
      simp
    · simp only [if_pos]
      rw [List.filter_filter]
      apply List.filter_congr
      intro w hw
      cases hx : (w.status == "notyetanswered" || w.status == "incorrect") <;>
        cases hy : (w.difficulty == some "hard") <;>
        simp [hx, hy]

theorem claim_C3_witness :
    0 < 2 ∧
    recap_filter_words [sampleA, sampleB] "" "" 2 none =
      [sampleA, sampleB].filter (fun w => decide (2 ≤ cnt w) &&
        (!false || w.difficulty == some "hard")) :=
  ⟨by decide, (claim_C3 [sampleA, sampleB] 2 false).1 (by decide)⟩

/-- C6 as frozen is false: a submission that carries a non-empty correction
field but whose `is_correction` flag is unset is routed to normal scoring,
not to correction handling. -/
theorem claim_C6_cex :
    classify_submission false "Hunde" "" "" "" = SubmissionRoute.scoring ∧
    ("Hunde" : String) ≠ "" := by
  constructor
  · rfl
  · decide

/-- C6 (amended): a submission is routed to correction handling iff the
`is_correction` flag is set and at least one correction field is non-empty;
applying the correction patches only the text fields (english/german when
non-empty, artikel whenever supplied) of the first matching record, changes
no other record, and never touches `status`, `incorrect_count` or
`difficulty`; with no matching record it reports `false` and changes
nothing. -/
theorem claim_C6 (is_correction : Bool)
    (corrected_german corrected_english corrected_artikel corrected_beispielsatz : String)
    (ws : List Word) (old_english old_german old_artikel new_english new_german : String)
    (new_artikel : Option String) :
    (classify_submission is_correction corrected_german corrected_english
        corrected_artikel corrected_beispielsatz = SubmissionRoute.correction ↔
      (is_correction = true ∧ (corrected_german ≠ "" ∨ corrected_english ≠ "" ∨
        corrected_artikel ≠ "" ∨ corrected_beispielsatz ≠ ""))) ∧
    (∀ i w, firstIdx (wordMatches old_artikel old_german old_english) ws = some i →
      ws[i]? = some w →
      sync_progress_with_vocab_change ws old_english old_german old_artikel
          new_english new_german new_artikel =
        (ws.set i (apply_sync_patch w new_english new_german new_artikel), true) ∧
      (apply_sync_patch w new_english new_german new_artikel).status = w.status ∧
      (apply_sync_patch w new_english new_german new_artikel).incorrect_count =
        w.incorrect_count ∧
      (apply_sync_patch w new_english new_german new_artikel).difficulty =
        w.difficulty ∧
      (new_english = "" →
        (apply_sync_patch w new_english new_german new_artikel).english = w.english) ∧
      (new_english ≠ "" →
        (apply_sync_patch w new_english new_german new_artikel).english = new_english) ∧
      (new_german = "" →
        (apply_sync_patch w new_english new_german new_artikel).deutsch = w.deutsch) ∧
      (new_german ≠ "" →
        (apply_sync_patch w new_english new_german new_artikel).deutsch = new_german) ∧
      (new_artikel = none →
        (apply_sync_patch w new_english new_german new_artikel).artikel = w.artikel) ∧
      (∀ s, new_artikel = some s →
        (apply_sync_patch w new_english new_german new_artikel).artikel = s) ∧
      (∀ j, j ≠ i →
        (sync_progress_with_vocab_change ws old_english old_german old_artikel
          new_english new_german new_artikel).1[j]? = ws[j]?)) ∧
    ((∀ w ∈ ws, wordMatches old_artikel old_german old_english w = false) →
      sync_progress_with_vocab_change ws old_english old_german old_artikel
        new_english new_german new_artikel = (ws, false)) := by
  refine ⟨?_, ?_, ?_⟩
  · cases is_correction
    · constructor
      · intro hcls
        exfalso
        unfold classify_submission at hcls
        simp at hcls
      · rintro ⟨h1, h2⟩
        cases h1
    · constructor
      · intro hcls
        refine ⟨rfl, ?_⟩
        by_contra hall
        push_neg at hall
        obtain ⟨e1, e2, e3, e4⟩ := hall
        subst e1
        subst e2
        subst e3
        subst e4
        exact absurd hcls (by decide)
      · rintro ⟨h1, h2⟩
        unfold classify_submission
        rw [if_pos ?hcond]
        case hcond =>
          rcases h2 with h | h | h | h <;>
            simp [beq_eq_false_iff_ne.mpr h]
  · intro i w hfirst hget
    have heq := sync_progress_with_vocab_change_eq ws old_english old_german old_artikel
      new_english new_german new_artikel
    have happ := applyFirst_of_some
      (f := fun w => apply_sync_patch w new_english new_german new_artikel) hfirst hget
    refine ⟨?_, rfl, rfl, rfl, ?_, ?_, ?_, ?_, ?_, ?_, ?_⟩
    · rw [heq, happ, hfirst]
      rfl
    · intro he
      subst he
      simp [apply_sync_patch]
    · intro he
      simp [apply_sync_patch, beq_eq_false_iff_ne.mpr he]
    · intro he
      subst he
      simp [apply_sync_patch]
    · intro he
      simp [apply_sync_patch, beq_eq_false_iff_ne.mpr he]
    · intro he
      subst he
      simp [apply_sync_patch]
    · intro s he
      subst he
      simp [apply_sync_patch]
    · intro j hj
      simp [heq, happ, List.getElem?_set_ne (Ne.symm hj)]
  · intro hnone
    have hfi : firstIdx (wordMatches old_artikel old_german old_english) ws = none :=
      (firstIdx_none_iff _ _).mpr hnone
    rw [sync_progress_with_vocab_change_eq, applyFirst_of_none hfi, hfi]
    rfl

theorem claim_C6_witness :
    sync_progress_with_vocab_change [sampleB] "dog" "hund" "der" "" "katze"
        (some "die") =
      ([{ sampleB with deutsch := "katze", artikel := "die" }], true) ∧
    sync_progress_with_vocab_change [sampleA] "x" "y" "z" "" "" none =
      ([sampleA], false) ∧
    (classify_submission true "Hunde" "" "" "" = SubmissionRoute.correction ↔
      (true = true ∧ (("Hunde" : String) ≠ "" ∨ ("" : String) ≠ "" ∨
        ("" : String) ≠ "" ∨ ("" : String) ≠ ""))) := by
  refine ⟨?_, ?_, ?_⟩
  · have h := (claim_C6 true "Hunde" "" "" "" [sampleB] "dog" "hund" "der" ""
      "katze" (some "die")).2.1 0 sampleB (by decide) (by decide)
    rw [h.1]
    decide
  · exact (claim_C6 true "" "" "" "" [sampleA] "x" "y" "z" "" "" none).2.2 (by decide)
  · exact (claim_C6 true "Hunde" "" "" "" [] "" "" "" "" "" none).1

/-- C7 as frozen is false in its last part: `save_progress` returns `None`
on both the success and the failure path, so no success/failure status
reaches the caller. -/
theorem claim_C7_cex :
    (save_progress ([] : List Word) true).2.2 =
      (save_progress ([] : List Word) false).2.2 ∧
    (save_progress ([] : List Word) true).2.2 = none :=
  ⟨rfl, rfl⟩

/-- C7 (amended): `save` never raises - both branches return normally; on a
storage error it logs the condition and leaves the in-memory document
unchanged; but its return value is `None` in every case, so the caller
receives no success/failure status. -/
theorem claim_C7 (doc : Doc) (write_ok : Bool) :
    (save_progress doc write_ok).1 = doc ∧
    ((save_progress doc write_ok).2.1 = true ↔ write_ok = false) ∧
    (save_progress doc write_ok).2.2 = none := by
  cases write_ok <;> simp [save_progress]

/-- C8 as frozen is false: a practice request naming an unknown level is not
surfaced as an error - the level is silently dropped and the default level
`A1.1` is substituted. -/
theorem claim_C8_cex :
    filter_selected_levels ["B9.9"] ["A1.1", "A1.2"] = ["A1.1"] ∧
    ("B9.9" : String) ∉ (["A1.1", "A1.2"] : List String) ∧
    ("B9.9" : String) ∉ filter_selected_levels ["B9.9"] ["A1.1", "A1.2"] := by
  refine ⟨rfl, by decide, by decide⟩

/-- C8 (amended): the practice route reports no error for unknown levels:
every served level is a known level or the default `A1.1`, the served list is
never empty, a requested unknown level is never served (unless it is the
default itself), and when every requested level is unknown the route serves
exactly `["A1.1"]`. -/
theorem claim_C8 (selected level_options : List String) :
    (∀ l ∈ filter_selected_levels selected level_options,
      l ∈ level_options ∨ l = "A1.1") ∧
    filter_selected_levels selected level_options ≠ [] ∧
    (∀ l ∈ selected, l ∉ level_options →
      l ∈ filter_selected_levels selected level_options → l = "A1.1") ∧
    ((∀ l ∈ selected, l ∉ level_options) →
      filter_selected_levels selected level_options = ["A1.1"]) := by
  have hfsl : filter_selected_levels selected level_options =
      if ((if selected.isEmpty then ["A1.1"] else selected).filter
          (fun l => level_options.contains l)).isEmpty then ["A1.1"]
      else (if selected.isEmpty then ["A1.1"] else selected).filter
          (fun l => level_options.contains l) := rfl
  rw [hfsl]
  set s2 := (if selected.isEmpty then ["A1.1"] else selected).filter
      (fun l => level_options.contains l) with hs2
  refine ⟨?_, ?_, ?_, ?_⟩
  · intro l hl
    by_cases h : s2.isEmpty = true
    · rw [if_pos h] at hl
      simp at hl
      exact Or.inr hl
    · rw [if_neg h] at hl
      rw [hs2] at hl
      left
      simpa using (List.mem_filter.mp hl).2
  · by_cases h : s2.isEmpty = true
    · rw [if_pos h]
      simp
    · rw [if_neg h]
      intro hnil
      rw [hnil] at h
      exact h rfl
  · intro l hlsel hnot hmem
    by_cases h : s2.isEmpty = true
    · rw [if_pos h] at hmem
      simpa using hmem
    · rw [if_neg h] at hmem
      rw [hs2] at hmem
      exact absurd (by simpa using (List.mem_filter.mp hmem).2) hnot
  · intro hall
    by_cases hsel : selected.isEmpty = true
    · by_cases h : s2.isEmpty = true
      · rw [if_pos h]
      · rw [if_neg h]
        rw [hs2, if_pos hsel]
        cases hcon : level_options.contains "A1.1"
        · exfalso
          apply h
          rw [hs2, if_pos hsel, List.filter_cons]
          have hmem : ("A1.1" : String) ∉ level_options := by simpa using hcon
          simp [hmem]
        · rw [List.filter_cons]
          have hmem : ("A1.1" : String) ∈ level_options := by simpa using hcon
          simp [hmem]
    · by_cases h : s2.isEmpty = true
      · rw [if_pos h]
      · exfalso
        apply h
        have hfe : selected.filter (fun l => level_options.contains l) = [] := by
          rw [List.filter_eq_nil_iff]
          intro l hl
          simpa using hall l hl
        rw [hs2, if_neg hsel, hfe]
        rfl

theorem claim_C8_witness :
    (∀ l ∈ (["B9.9"] : List String), l ∉ (["A1.1"] : List String)) ∧
    filter_selected_levels ["B9.9"] ["A1.1"] = ["A1.1"] :=
  ⟨by decide, (claim_C8 ["B9.9"] ["A1.1"]).2.2.2 (by decide)⟩

theorem claim_C1_witness :
    (∃ w1, (process_answer [sampleA, sampleB] "der" "hund" "dog" true false)[1]? = some w1 ∧
      w1.status = "correct" ∧ cnt w1 = cnt sampleB) ∧
    (∃ w2, (process_answer [sampleA, sampleB] "der" "hund" "dog" false false)[1]? = some w2 ∧
      w2.status = "incorrect" ∧ cnt w2 = cnt sampleB + 1) ∧
    process_answer [sampleA, sampleB] "der" "hund" "dog" true true = [sampleA, sampleB] ∧
    (∃ w3, (process_answer [sampleA, sampleB] "der" "hund" "dog" false true)[1]? = some w3 ∧
      w3.status = sampleB.status ∧ cnt w3 = cnt sampleB + 1) :=
  claim_C1 [sampleA, sampleB] "der" "hund" "dog" 1 sampleB (by decide) (by decide)

end VocabEngine
